import Mathlib

/-!
This file is a shallow embedding, in Lean 4, of the persistence-model
benchmarking harness of `model_persistence.py` (short-term energy demand
forecasting), together with theorems settling the specification claims
about it.

Data model: a windowed table is indexed by calendar date (modelled as an
integer day number, so that the fixed 365-day offsets of the source are
exact integer arithmetic) and has exactly 24 hourly columns.  Numeric
values are rationals; the only irrational operation of the source,
`np.sqrt` in the RMSE computation, is modelled by `Real.sqrt`.
Fallible pandas operations (`.loc` misses, out-of-range `.iloc`,
NaN-producing rolling windows) are modelled with an explicit error type.
-/

namespace ModelPersistence

/-- A row of a windowed table: one value per hour slice 0..23. -/
abbrev Row : Type := Fin 24 → ℚ

/-- An entry of a windowed table: a calendar date (integer day number)
together with its 24 hourly values. -/
abbrev Entry : Type := Int × Row

/-- A windowed table: rows are daily values, columns are hourly slices.
The date index is the first component of each entry. -/
abbrev Table : Type := List Entry

/-- Failure modes of the pandas operations used by the strategies:
a `.loc` lookup miss (`KeyError`, carrying the missing date label), an
out-of-range positional `.iloc` access (`IndexError`), and the NaN row
produced by `rolling(window).mean()` on insufficient history. -/
inductive StratError : Type where
  | keyError (missing : Int)
  | indexError
  | nanValue
deriving DecidableEq, Repr

/-- Python positional indexing as used by `.iloc[i]`: a non-negative
index counts from the front, a negative index `-k` denotes position
`len - k`, and any index outside the list raises (`none`). -/
def pyIloc {α : Type} (l : List α) (i : Int) : Option α :=
  if 0 ≤ i then l.get? i.toNat
  else if (-i).toNat ≤ l.length then l.get? (l.length - (-i).toNat)
  else none

/-- Embedding of `train_test_split(data, split_date)`:
`train = data[:split_date]` is label slicing on the date index, inclusive
of the split date; the source then parses the split date and increments it
by one day (`split_date += dt.timedelta(days=1)`), and
`test = data[split_date:]` keeps the rows dated on or after that next day.
On the chronologically ordered date index of the data model, label slicing
selects exactly the rows whose date satisfies the bound. -/
def train_test_split (data : Table) (split_date : Int) : Table × Table :=
  let train := data.filter (fun e => decide (e.1 ≤ split_date))
  let split_date := split_date + 1
  let test := data.filter (fun e => decide (split_date ≤ e.1))
  (train, test)

/-- Embedding of `day_hbh_persistence(history, days)`: returns
`history.iloc[-days, :]`, the values of the row `days` positions from the
end of the history (the date index is dropped by the row access). -/
def day_hbh_persistence (history : Table) (days : Nat) : Except StratError Row :=
  match pyIloc history (-(days : Int)) with
  | some e => .ok e.2
  | none => .error .indexError

/-- Embedding of `ma_persistence(history, window)`: the prediction is
`history.rolling(window).mean().iloc[-1, :]`, i.e. for each hourly column
the mean of that column over the `window` rows ending at the last row.
When the history has fewer than `window` rows the rolling mean of the last
row is a NaN row (and `rolling` requires a positive window), modelled here
as an error value. -/
def ma_persistence (history : Table) (window : Nat) : Except StratError Row :=
  if 0 < window ∧ window ≤ history.length then
    .ok (fun j => (((history.drop (history.length - window)).map (fun e => e.2 j)).sum) / (window : ℚ))
  else .error .nanValue

/-- Embedding of `same_day_oya_persistence(history)`: sets
`day_oya = history.index[-1]` (raising on an empty index), moves it back a
fixed 365 days, and returns `history.loc[day_oya, :]` — the row labelled
with that exact date, a `KeyError` if no such label exists.  On the
duplicate-free date index of the data model, `.loc` returns the unique
matching row, i.e. the first match. -/
def same_day_oya_persistence (history : Table) : Except StratError Row :=
  match history.getLast? with
  | none => .error .indexError
  | some last =>
    let day_oya := last.1 - 365
    match history.find? (fun e => decide (e.1 = day_oya)) with
    | some e => .ok e.2
    | none => .error (.keyError day_oya)

/-- The hard-coded CSV path that `get_persistence_dataset` actually reads,
regardless of its `path` argument. -/
def hard_coded_csv : String := "./data/cleaned_data/energy_loads_2015_2019.csv"

/-- Pandas label slicing `data[start:stop]` on the date index, inclusive
at both ends ("datetimeindexes are inclusive"). -/
def dateSlice (data : Table) (start stop : Int) : Table :=
  data.filter (fun e => decide (start ≤ e.1 ∧ e.1 ≤ stop))

/-- Embedding of `get_persistence_dataset(path, index, start, stop, shift)`.
The helpers `transform_to_windows` and `rename_cols` are imported from
`features_preprocessing`, which is outside this file's sources, so they
are abstract parameters here (the raw frame type `Raw` is likewise
abstract); `read_csv` models `pd.read_csv(..., index_col=index)` as a
function of the file path and the index column.  The body reads the
hard-coded path literal — the `path` argument is never used. -/
def get_persistence_dataset {Raw : Type}
    (read_csv : String → String → Raw)
    (transform_to_windows : Raw → Table)
    (rename_cols : Table → Int → Table)
    (path : String) (index : String) (start stop : Int) (shift : Int) : Table :=
  let data := read_csv hard_coded_csv index
  let data := transform_to_windows data
  let data := rename_cols data shift
  dateSlice data start stop

/-- The hourly column `i` of a table of rows, as the list of its values
over all days (`frame.iloc[:, i]`). -/
def column (t : List Row) (i : Fin 24) : List ℚ :=
  t.map (fun r => r i)

/-- Embedding of sklearn's `mean_squared_error` on two equal-length
columns: the mean of the squared differences. -/
def mean_squared_error (a b : List ℚ) : ℚ :=
  (((a.zip b).map (fun p => (p.1 - p.2) ^ 2)).sum) / (a.length : ℚ)

/-- One per-hour error of `calculate_errors`:
`np.sqrt(mean_squared_error(Y_hat_test.iloc[:, i], Y_test.iloc[:, i]))`. -/
noncomputable def rmse_col (a b : List ℚ) : ℝ :=
  Real.sqrt ((mean_squared_error a b : ℚ) : ℝ)

/-- Embedding of `np.mean` on a list of reals. -/
noncomputable def npMean (l : List ℝ) : ℝ :=
  l.sum / (l.length : ℝ)

/-- Embedding of `calculate_errors(Y_hat_test, Y_test, result_set)`.
`error_list` collects, for `i` over the 24 columns, the singleton list
`[rmse_i]` appended at step `i`; `error_mean` appends the single element
`[np.mean(error_list[0])]` — the mean of the FIRST singleton, exactly as
written in the source.  The per-hour errors dataframe is modelled as the
result-set label paired with the list of its 24 one-element rows; the
function returns `(errors, error_mean)`. -/
noncomputable def calculate_errors (Y_hat_test Y_test : List Row) (result_set : String) :
    (String × List (List ℝ)) × List (List ℝ) :=
  let error_list : List (List ℝ) :=
    (List.finRange 24).map (fun i => [rmse_col (column Y_hat_test i) (column Y_test i)])
  let error_mean : List (List ℝ) := [[npMean (error_list.headD [])]]
  ((result_set, error_list), error_mean)

/-- The 24 per-hour error values read back out of the errors dataframe
(each stored row of the frame is a one-element list). -/
noncomputable def errorTableColumn (error_list : List (List ℝ)) : List ℝ :=
  error_list.map (fun l => l.headD 0)

/-- A forecast strategy as consumed by the walk-forward harness: a
function from a history table to a predicted row, or a failure. -/
abbrev Strategy : Type := Table → Except StratError Row

/-- The state of `walk_forward_evaluation`: its two table arguments, the
`history` buffer initialised from `train.copy()`, and the `predictions`
list accumulated across steps. -/
structure WFState : Type where
  train : Table
  test : Table
  history : Table
  predictions : List Row
deriving DecidableEq

/-- Initial state of the walk-forward loop: `history = train.copy()` and
an empty predictions list. -/
def wf_init (train test : Table) : WFState :=
  { train := train, test := test, history := train, predictions := [] }

/-- One iteration of the walk-forward loop at step `i`:
`Y_hat = model(history)` (a strategy failure aborts the run), then
`predictions.append(Y_hat)`, then `history.append(test.iloc[i, :])` —
pandas `DataFrame.append` returns a NEW frame and the source never
assigns the result, so the state's history field is left unchanged. -/
def wf_step (model : Strategy) (s : WFState) (i : Nat) : Except StratError WFState :=
  match model s.history with
  | .error e => .error e
  | .ok y =>
    let _appended := s.history ++ (s.test.drop i).take 1
    .ok { s with predictions := s.predictions ++ [y] }

/-- The walk-forward loop of `walk_forward_evaluation`:
`for i in range(test.shape[0])`, folding `wf_step` from the initial
state. -/
def wf_run (model : Strategy) (train test : Table) : Except StratError WFState :=
  (List.range test.length).foldlM (wf_step model) (wf_init train test)

/-- Embedding of `walk_forward_evaluation(model, train, test, model_name)`:
runs the walk-forward loop and hands the predictions and the test values
to `calculate_errors`, returning `(errors, error_mean)`; an uncaught
strategy exception propagates out unchanged. -/
noncomputable def walk_forward_evaluation (model : Strategy) (train test : Table)
    (model_name : String) :
    Except StratError ((String × List (List ℝ)) × List (List ℝ)) :=
  (wf_run model train test).map
    (fun s => calculate_errors s.predictions (test.map (fun e => e.2)) model_name)

/-! Helper lemmas. -/

/-- Splitting a chronologically ordered table at a date bound and
concatenating the two filtered halves gives back the table. -/
lemma filter_split_append (l : Table) (d : Int)
    (hsort : l.Pairwise (fun a b => a.1 ≤ b.1)) :
    l.filter (fun e => decide (e.1 ≤ d)) ++ l.filter (fun e => decide (d + 1 ≤ e.1)) = l := by
  induction l with
  | nil => simp
  | cons a t ih =>
    rcases List.pairwise_cons.mp hsort with ⟨ha, ht⟩
    by_cases had : a.1 ≤ d
    · have hno : ¬ (d + 1 ≤ a.1) := by omega
      simp [List.filter_cons, had, hno, ih ht]
    · have hgt : d + 1 ≤ a.1 := by omega
      have h1 : t.filter (fun e => decide (e.1 ≤ d)) = [] := by
        rw [List.filter_eq_nil_iff]
        intro e he
        have := ha e he
        simp only [decide_eq_true_eq]
        omega
      have h2 : t.filter (fun e => decide (d + 1 ≤ e.1)) = t := by
        rw [List.filter_eq_self]
        intro e he
        have := ha e he
        simp only [decide_eq_true_eq]
        omega
      simp [List.filter_cons, had, hgt, h1, h2]

/-- C4: for a date-indexed windowed table in chronological order and any
split date, `train_test_split` returns a train part holding exactly the
rows dated on or before the split date, a test part holding exactly the
rows dated strictly after it, the two parts are disjoint, their
concatenation is the original table (same rows, same values, no
duplication or omission), and each part is a sublist of the original,
hence preserves the original chronological order. -/
theorem train_test_split_correct (data : Table) (d : Int)
    (hsort : data.Pairwise (fun a b => a.1 ≤ b.1)) :
    (∀ e, e ∈ (train_test_split data d).1 ↔ e ∈ data ∧ e.1 ≤ d) ∧
    (∀ e, e ∈ (train_test_split data d).2 ↔ e ∈ data ∧ d < e.1) ∧
    (∀ e, ¬(e ∈ (train_test_split data d).1 ∧ e ∈ (train_test_split data d).2)) ∧
    (train_test_split data d).1 ++ (train_test_split data d).2 = data ∧
    (train_test_split data d).1.Sublist data ∧
    (train_test_split data d).2.Sublist data := by
  have hmem1 : ∀ e, e ∈ (train_test_split data d).1 ↔ e ∈ data ∧ e.1 ≤ d := by
    intro e
    simp [train_test_split, List.mem_filter]
  have hmem2 : ∀ e, e ∈ (train_test_split data d).2 ↔ e ∈ data ∧ d < e.1 := by
    intro e
    simp only [train_test_split, List.mem_filter, decide_eq_true_eq]
    constructor
    · rintro ⟨h1, h2⟩
      exact ⟨h1, by omega⟩
    · rintro ⟨h1, h2⟩
      exact ⟨h1, by omega⟩
  refine ⟨hmem1, hmem2, ?_, ?_, ?_, ?_⟩
  · intro e ⟨h1, h2⟩
    have := (hmem1 e).mp h1
    have := (hmem2 e).mp h2
    omega
  · exact filter_split_append data d hsort
  · exact List.filter_sublist data
  · exact List.filter_sublist data

/-- A two-day chronological table used as a concrete split input. -/
def dataC4 : Table := [(3, fun _ => 1), (7, fun _ => 2)]

/-- Witness for C4: the split theorem applied at a concrete table and
split date 5, with the chronological-order hypothesis discharged. -/
theorem train_test_split_correct_witness :
    dataC4.Pairwise (fun a b => a.1 ≤ b.1) ∧
    ((∀ e, e ∈ (train_test_split dataC4 5).1 ↔ e ∈ dataC4 ∧ e.1 ≤ 5) ∧
     (∀ e, e ∈ (train_test_split dataC4 5).2 ↔ e ∈ dataC4 ∧ 5 < e.1) ∧
     (∀ e, ¬(e ∈ (train_test_split dataC4 5).1 ∧ e ∈ (train_test_split dataC4 5).2)) ∧
     (train_test_split dataC4 5).1 ++ (train_test_split dataC4 5).2 = dataC4 ∧
     (train_test_split dataC4 5).1.Sublist dataC4 ∧
     (train_test_split dataC4 5).2.Sublist dataC4) :=
  ⟨by decide, train_test_split_correct dataC4 5 (by decide)⟩

/-- C10: the table produced by `get_persistence_dataset` does not depend
on its `path` argument — for any two paths (all other arguments and all
collaborator functions equal) it reads the same hard-coded file and
returns the same table. -/
theorem get_persistence_dataset_path_independent {Raw : Type}
    (read_csv : String → String → Raw)
    (transform_to_windows : Raw → Table)
    (rename_cols : Table → Int → Table)
    (path1 path2 : String) (index : String) (start stop shift : Int) :
    get_persistence_dataset read_csv transform_to_windows rename_cols
        path1 index start stop shift =
      get_persistence_dataset read_csv transform_to_windows rename_cols
        path2 index start stop shift := rfl

/-- C7: for a history of at least `days ≥ 1` rows, the previous-day
strategy returns verbatim the values of the row `days` positions back
from the end of the history (the row at position `length - days`), and
with the default offset `days = 1` that row is the last row of the
history. -/
theorem day_hbh_correct (history : Table) (days : Nat) (e : Entry)
    (hd : 1 ≤ days) (hl : days ≤ history.length)
    (hget : history.get? (history.length - days) = some e) :
    day_hbh_persistence history days = .ok e.2 ∧
      (days = 1 → history.getLast? = some e) := by
  constructor
  · unfold day_hbh_persistence pyIloc
    have h0 : ¬ (0 ≤ -(days : Int)) := by omega
    have h1 : (-(-(days : Int))).toNat = days := by omega
    rw [if_neg h0, h1, if_pos hl, hget]
  · intro h1
    subst h1
    rw [List.getLast?_eq_get?]
    exact hget

/-- The first row [1, 2, ..., 24] of the spec's previous-day test. -/
def rowOnes : Row := fun j => (j : ℚ) + 1

/-- The second row [10, 20, ..., 240] of the spec's previous-day test. -/
def rowTens : Row := fun j => 10 * ((j : ℚ) + 1)

/-- The spec's concrete previous-day test history: rows
[1, 2, ..., 24] and [10, 20, ..., 240]. -/
def historyC7 : Table := [(0, rowOnes), (1, rowTens)]

/-- Witness for C7: on the spec's two-row history, the previous-day
strategy with offset 1 returns the second row [10, 20, ..., 240], which
is the last row. -/
theorem day_hbh_correct_witness :
    (1 ≤ 1 ∧ 1 ≤ historyC7.length ∧
      historyC7.get? (historyC7.length - 1) = some ((1 : Int), rowTens)) ∧
    (day_hbh_persistence historyC7 1 = .ok rowTens ∧
      (1 = 1 → historyC7.getLast? = some ((1 : Int), rowTens))) :=
  ⟨⟨le_refl 1, by decide, rfl⟩,
    day_hbh_correct historyC7 1 ((1 : Int), rowTens)
      (le_refl 1) (by decide) rfl⟩

/-- A constant row, with the same value in all 24 hour slices. -/
def rowConst (q : ℚ) : Row := fun _ => q

/-- C5: for a non-empty history whose last date is `d` and whose date
index is duplicate-free, the same-day-last-year strategy returns verbatim
the row dated exactly `d - 365` when one exists, and raises a lookup
failure carrying that missing date (not a NaN or a wrong row) when no
such row exists. -/
theorem same_day_oya_correct (history : Table) (last : Entry)
    (hlast : history.getLast? = some last)
    (hnd : (history.map Prod.fst).Nodup) :
    (∀ e ∈ history, e.1 = last.1 - 365 →
      same_day_oya_persistence history = .ok e.2) ∧
    ((∀ e ∈ history, e.1 ≠ last.1 - 365) →
      same_day_oya_persistence history = .error (.keyError (last.1 - 365))) := by
  constructor
  · intro e he hdate
    unfold same_day_oya_persistence
    rw [hlast]
    cases hf : history.find? (fun x => decide (x.1 = last.1 - 365)) with
    | none =>
      exfalso
      have := List.find?_eq_none.mp hf e he
      simp only [decide_eq_true_eq] at this
      exact this hdate
    | some e2 =>
      have hmem2 := List.mem_of_find?_eq_some hf
      have hpred := List.find?_some hf
      simp only [decide_eq_true_eq] at hpred
      have he2 : e2 = e :=
        List.inj_on_of_nodup_map hnd hmem2 he (by rw [hpred, hdate])
      simp only [hf, he2]
  · intro hmiss
    unfold same_day_oya_persistence
    rw [hlast]
    have hf : history.find? (fun x => decide (x.1 = last.1 - 365)) = none := by
      rw [List.find?_eq_none]
      intro e he
      simp only [decide_eq_true_eq]
      exact hmiss e he
    simp only [hf]

/-- A concrete history for the same-day-last-year strategy: the last date
365 has the row dated 0 exactly 365 days earlier. -/
def historyC5 : Table := [(0, rowConst 1), (365, rowConst 2)]

/-- Witness for C5: on `historyC5` the strategy finds the row dated
`365 - 365 = 0` and returns its values verbatim. -/
theorem same_day_oya_correct_witness :
    (historyC5.getLast? = some ((365 : Int), rowConst 2) ∧
      (historyC5.map Prod.fst).Nodup) ∧
    same_day_oya_persistence historyC5 = .ok (rowConst 1) :=
  ⟨⟨rfl, by decide⟩,
    (same_day_oya_correct historyC5 ((365 : Int), rowConst 2) rfl (by decide)).1
      ((0 : Int), rowConst 1) (by simp [historyC5]) (by decide)⟩

/-- C8: for a history with at least `window ≥ 1` rows, the moving-average
strategy returns, independently for each of the 24 hour columns, the
arithmetic mean (sum divided by count) of that column over the last
`window` rows of the history. -/
theorem ma_persistence_correct (history : Table) (window : Nat)
    (hw : 0 < window) (hl : window ≤ history.length) :
    ma_persistence history window =
      .ok (fun j =>
        (((history.reverse.take window).map (fun e => e.2 j)).sum) /
          (((history.reverse.take window).length : ℚ))) := by
  unfold ma_persistence
  rw [if_pos ⟨hw, hl⟩]
  congr 1
  funext j
  have hdrop : history.drop (history.length - window) =
      (history.reverse.take window).reverse := by
    rw [← List.rtake_eq_reverse_take_reverse]
    rfl
  have hlen : (history.reverse.take window).length = window := by
    rw [List.length_take, List.length_reverse]
    omega
  rw [hdrop, hlen, List.map_reverse, List.sum_reverse]

/-- The spec's moving-average test history: three rows of constant
values 3, 6 and 9. -/
def historyC8 : Table := [(0, rowConst 3), (1, rowConst 6), (2, rowConst 9)]

/-- Witness for C8: on the spec's three-row history with window 3, the
moving average is the constant row 6 (the per-hour mean of 3, 6, 9). -/
theorem ma_persistence_correct_witness :
    (0 < 3 ∧ 3 ≤ historyC8.length) ∧
    ma_persistence historyC8 3 = .ok (rowConst 6) :=
  ⟨⟨by decide, by decide⟩,
    (ma_persistence_correct historyC8 3 (by decide) (by decide)).trans (by
      congr 1
      funext j
      simp [historyC8, rowConst]
      norm_num)⟩

/-- Summed squared differences of a column with itself vanish. -/
lemma zip_self_sq_sum (l : List ℚ) :
    ((l.zip l).map (fun p => (p.1 - p.2) ^ 2)).sum = 0 := by
  induction l with
  | nil => simp
  | cons a t ih => simp [ih]

/-- The mean squared error of a column against itself is zero. -/
lemma mean_squared_error_self (a : List ℚ) : mean_squared_error a a = 0 := by
  unfold mean_squared_error
  rw [zip_self_sq_sum]
  simp

/-- The RMSE of a column against itself is zero. -/
lemma rmse_col_self (a : List ℚ) : rmse_col a a = 0 := by
  unfold rmse_col
  rw [mean_squared_error_self]
  simp

/-- C6: when the predictions table equals the truth table exactly, the
error aggregator returns a per-hour Error Table whose 24 entries are all
zero and a scalar mean error equal to zero. -/
theorem calculate_errors_zero_on_exact (Y : List Row) (name : String)
    (hne : Y ≠ []) :
    (calculate_errors Y Y name).1.2 = List.replicate 24 [(0 : ℝ)] ∧
    (calculate_errors Y Y name).2 = [[(0 : ℝ)]] := by
  clear hne
  have hlist : (List.finRange 24).map
      (fun i => [rmse_col (column Y i) (column Y i)]) =
      List.replicate 24 [(0 : ℝ)] := by
    rw [List.eq_replicate_iff]
    constructor
    · simp
    · intro b hb
      rcases List.mem_map.mp hb with ⟨i, _, hi⟩
      rw [← hi, rmse_col_self]
  constructor
  · simp only [calculate_errors]
    exact hlist
  · simp only [calculate_errors, hlist]
    rw [show (List.replicate 24 [(0 : ℝ)]).headD [] = [(0 : ℝ)] from rfl]
    simp [npMean]

/-- A concrete one-row prediction table equal to its truth table. -/
def tableC6 : List Row := [rowConst 5]

/-- Witness for C6: the zero-error theorem applied at the concrete
one-row table, with the nonemptiness hypothesis discharged. -/
theorem calculate_errors_zero_on_exact_witness :
    (tableC6 ≠ []) ∧
    ((calculate_errors tableC6 tableC6 "prev_day_persistence").1.2 =
        List.replicate 24 [(0 : ℝ)] ∧
      (calculate_errors tableC6 tableC6 "prev_day_persistence").2 = [[(0 : ℝ)]]) :=
  ⟨by simp [tableC6],
    calculate_errors_zero_on_exact tableC6 "prev_day_persistence" (by simp [tableC6])⟩

/-- A one-day prediction table whose hour-0 value is 2 and whose other
hours are 0. -/
def predC2 : List Row := [fun j => if j = 0 then 2 else 0]

/-- A one-day truth table of all zeros. -/
def truthC2 : List Row := [rowConst 0]

/-- Per-hour errors of the concrete C2 input: RMSE 2 at hour 0 and 0 at
every other hour. -/
lemma rmse_colC2 (i : Fin 24) :
    rmse_col (column predC2 i) (column truthC2 i) = if i = 0 then 2 else 0 := by
  unfold rmse_col mean_squared_error column predC2 truthC2 rowConst
  by_cases hi : i = 0
  · simp only [hi, if_pos rfl]
    norm_num
    rw [show ((4 : ℝ)) = 2 ^ 2 by norm_num]
    exact Real.sqrt_sq (by norm_num)
  · simp [hi]

/-- C2 fails on the code: on the concrete predictions/truth pair whose 24
per-hour RMSEs are 2 at hour 0 and 0 elsewhere, the scalar returned as
the Error Mean is `np.mean(error_list[0])`, the mean of the FIRST
one-element row alone, i.e. the hour-0 RMSE 2 — not the unweighted mean
1/12 of all 24 per-hour values. -/
theorem calculate_errors_mean_is_hour0 :
    (calculate_errors predC2 truthC2 "prev_day_persistence").2 = [[(2 : ℝ)]] ∧
    npMean (errorTableColumn
        (calculate_errors predC2 truthC2 "prev_day_persistence").1.2) = 1 / 12 ∧
    (2 : ℝ) ≠ 1 / 12 := by
  have hmap : (List.finRange 24).map
      (fun i => [rmse_col (column predC2 i) (column truthC2 i)]) =
      (List.finRange 24).map (fun i => [if i = 0 then (2 : ℝ) else 0]) :=
    List.map_congr_left (fun i _ => by rw [rmse_colC2 i])
  refine ⟨?_, ?_, by norm_num⟩
  · simp only [calculate_errors, hmap]
    rw [List.finRange_succ_eq_map]
    simp [npMean]
  · simp only [calculate_errors, errorTableColumn, hmap]
    rw [List.map_map]
    have hcomp : ((fun l => l.headD (0 : ℝ)) ∘
        fun i : Fin 24 => [if i = 0 then (2 : ℝ) else 0]) =
        fun i : Fin 24 => if i = 0 then (2 : ℝ) else 0 := by
      funext i
      rfl
    rw [hcomp, ← List.ofFn_eq_map]
    unfold npMean
    rw [List.sum_ofFn,
      Finset.sum_ite_eq' Finset.univ (0 : Fin 24) (fun _ => (2 : ℝ))]
    simp
    norm_num

/-- A one-day training table. -/
def trainC1 : Table := [(0, rowConst 1)]

/-- A two-day test table whose rows differ from the training row. -/
def testC1 : Table := [(1, rowConst 2), (2, rowConst 3)]

/-- C1 fails on the code: `history.append(test.iloc[i, :])` discards the
frame returned by pandas `DataFrame.append`, so the history buffer never
grows.  Concretely, running the previous-day strategy over a two-day test
set leaves the final history equal to the original one-row train table
and produces the train row twice — the step-1 forecast was made from a
history NOT containing test row 0 (otherwise it would have returned
`rowConst 2`, which differs from `rowConst 1`). -/
theorem wf_history_never_grows :
    wf_run (fun h => day_hbh_persistence h 1) trainC1 testC1 =
      .ok { train := trainC1, test := testC1, history := trainC1,
            predictions := [rowConst 1, rowConst 1] } ∧
    rowConst 1 ≠ rowConst 2 :=
  ⟨rfl, by decide⟩

/-- A one-day training table for the failure-propagation runs. -/
def trainC3 : Table := [(0, rowConst 1)]

/-- A one-day test table for the failure-propagation runs. -/
def testC3 : Table := [(1, rowConst 2)]

/-- C3's context claim fails on the code: the evaluator propagates the
strategy's exception unchanged, so two runs that differ only in the
model identifier produce the SAME failure value, which carries only what
the strategy raised (the missing date of the year-ago lookup) — no step
index and no strategy/model identifier is attached. -/
theorem wf_failure_ignores_identity :
    walk_forward_evaluation same_day_oya_persistence trainC3 testC3
        "prev_day_persistence" = .error (.keyError (-365)) ∧
    walk_forward_evaluation same_day_oya_persistence trainC3 testC3
        "ma_persistence" = .error (.keyError (-365)) :=
  ⟨rfl, rfl⟩

/-- C3 as amended: when the strategy fails on the history of the first
step (which, the history buffer never growing, is the train table), the
evaluator halts that model's run and propagates the strategy's failure
unchanged — it does not skip the day and continue, and the propagated
failure is exactly what the strategy raised, without an attached step
index or model identifier. -/
theorem wf_halts_and_propagates (model : Strategy) (train test : Table)
    (name : String) (err : StratError)
    (hne : test ≠ []) (hfail : model train = .error err) :
    walk_forward_evaluation model train test name = .error err := by
  obtain ⟨t, ts, rfl⟩ := List.exists_cons_of_ne_nil hne
  unfold walk_forward_evaluation wf_run
  rw [List.length_cons, List.range_succ_eq_map, List.foldlM_cons]
  have hstep : wf_step model (wf_init train (t :: ts)) 0 = .error err := by
    simp only [wf_step, wf_init, hfail]
  rw [hstep]
  rfl

/-- Witness for the amended C3: the year-ago strategy fails on the
one-row train table (no row dated 365 days before day 0), and the
evaluator propagates exactly that `KeyError`. -/
theorem wf_halts_and_propagates_witness :
    (testC3 ≠ [] ∧ same_day_oya_persistence trainC3 = .error (.keyError (-365))) ∧
    walk_forward_evaluation same_day_oya_persistence trainC3 testC3
        "same_day_oya_persistence" = .error (.keyError (-365)) :=
  ⟨⟨by simp [testC3], rfl⟩,
    wf_halts_and_propagates same_day_oya_persistence trainC3 testC3
      "same_day_oya_persistence" (.keyError (-365)) (by simp [testC3]) rfl⟩

/-- One walk-forward step never changes the train, test or history fields
of the state: the source reassigns only the predictions list. -/
lemma wf_step_fields (model : Strategy) (s s1 : WFState) (i : Nat)
    (h : wf_step model s i = .ok s1) :
    s1.train = s.train ∧ s1.test = s.test ∧ s1.history = s.history := by
  unfold wf_step at h
  cases hm : model s.history with
  | error e =>
    simp only [hm] at h
    exact absurd h (by simp)
  | ok y =>
    simp only [hm, Except.ok.injEq] at h
    subst h
    exact ⟨rfl, rfl, rfl⟩

/-- Folding walk-forward steps never changes the train, test or history
fields of the state. -/
lemma wf_foldlM_preserves (model : Strategy) (l : List Nat) :
    ∀ (s s1 : WFState), l.foldlM (wf_step model) s = .ok s1 →
      s1.train = s.train ∧ s1.test = s.test ∧ s1.history = s.history := by
  induction l with
  | nil =>
    intro s s1 h
    simp only [List.foldlM_nil] at h
    have h2 : (Except.ok s : Except StratError WFState) = .ok s1 := h
    simp only [Except.ok.injEq] at h2
    subst h2
    exact ⟨rfl, rfl, rfl⟩
  | cons a t ih =>
    intro s s1 h
    rw [List.foldlM_cons] at h
    cases hm : wf_step model s a with
    | error e =>
      rw [hm] at h
      have h2 : (Except.error e : Except StratError WFState) = .ok s1 := h
      exact absurd h2 (by simp)
    | ok s2 =>
      rw [hm] at h
      have h2 : t.foldlM (wf_step model) s2 = .ok s1 := h
      obtain ⟨ht, hte, hh⟩ := ih s2 s1 h2
      obtain ⟨gt, gte, gh⟩ := wf_step_fields model s s2 a hm
      exact ⟨ht.trans gt, hte.trans gte, hh.trans gh⟩

/-- C9: `walk_forward_evaluation` never modifies its train or test
arguments — whenever the walk-forward run finishes, the train and test
tables held in the final state are exactly the ones passed in (the run
works on a history initialised from a copy of train and only reads
test). -/
theorem wf_run_preserves_train_test (model : Strategy) (train test : Table)
    (s : WFState) (h : wf_run model train test = .ok s) :
    s.train = train ∧ s.test = test := by
  obtain ⟨h1, h2, _⟩ :=
    wf_foldlM_preserves model (List.range test.length) (wf_init train test) s h
  exact ⟨h1, h2⟩

/-- The final state of the concrete previous-day walk-forward run. -/
def stateC9 : WFState :=
  { train := trainC1, test := testC1, history := trainC1,
    predictions := [rowConst 1, rowConst 1] }

/-- Witness for C9: the concrete previous-day run finishes in `stateC9`,
whose train and test fields equal the tables passed in. -/
theorem wf_run_preserves_train_test_witness :
    (wf_run (fun h => day_hbh_persistence h 1) trainC1 testC1 = .ok stateC9) ∧
    (stateC9.train = trainC1 ∧ stateC9.test = testC1) :=
  ⟨rfl,
    wf_run_preserves_train_test (fun h => day_hbh_persistence h 1)
      trainC1 testC1 stateC9 rfl⟩

end ModelPersistence
